import Mathlib

/-!
Verification of the qli-to-SVG renderer (`src/qli/qli_svg.py`).

The Python source is shallowly embedded below.  Machine floats are modelled
by exact real numbers (`ℝ`, with `ℂ` standing in for Python's `complex`);
the float-cleanup helper `condition_floats`, which is purely arithmetic,
is embedded over `ℚ` so that it stays executable.  Python's float division,
which raises `ZeroDivisionError` on a zero divisor, is modelled by an
`Option`-valued division.  Definitions follow the source line by line;
theorems about the claims come after all definitions.
-/

noncomputable section

/-- `EPLSILON` (sic, the source's spelling): the cleanup threshold `1.e-6`. -/
def EPLSILON : ℚ := 1 / 1000000

/-- Running maximum of absolute values, seeded at 0, exactly as the
`max_abs` loop of `condition_floats` computes it. -/
def max_abs_of (l : List ℚ) : ℚ :=
  l.foldl (fun acc v => max acc |v|) 0

/-- `condition_floats` from the source: each value `v` of the group is
replaced by `0` when `abs(v) / epsilon < max_abs`, else kept.  The Python
function works on a keyword dict; only the multiset of values matters, so
the group is modelled as a list of values. -/
def condition_floats (epsilon : ℚ) (kwds : List ℚ) : List ℚ :=
  let m := max_abs_of kwds
  kwds.map (fun v => if |v| / epsilon < m then 0 else v)

/-- `cmath.rect(r, phi)`: the complex number `r * (cos phi + i sin phi)`. -/
def rect (r phi : ℝ) : ℂ := ⟨r * Real.cos phi, r * Real.sin phi⟩

/-- `mat_rot`: rotation complex number to a 3x3 homogeneous matrix. -/
def mat_rot (w : ℂ) : Matrix (Fin 3) (Fin 3) ℝ :=
  !![w.re, -w.im, 0; w.im, w.re, 0; 0, 0, 1]

/-- `mat_scale`: scale complex number (re = x scale, im = y scale) to a
3x3 homogeneous matrix. -/
def mat_scale (s : ℂ) : Matrix (Fin 3) (Fin 3) ℝ :=
  !![s.re, 0, 0; 0, s.im, 0; 0, 0, 1]

/-- `mat_trans`: translation complex number to a 3x3 homogeneous matrix. -/
def mat_trans (t : ℂ) : Matrix (Fin 3) (Fin 3) ℝ :=
  !![1, 0, t.re; 0, 1, t.im; 0, 0, 1]

/-- The transform matrix computed inside `svg_header`:
`mat_trans(size/2) @ mat_rot(rot) @ mat_scale(-1+1j) @ mat_scale(scale)
 @ mat_trans(-centre)` with `centre = extents[0] + (extents[1]-extents[0])/2`. -/
def svg_header_mat (size scale rotv : ℂ) (extents : ℂ × ℂ) :
    Matrix (Fin 3) (Fin 3) ℝ :=
  let centre := extents.1 + (extents.2 - extents.1) / 2
  mat_trans (size / 2) * mat_rot rotv * mat_scale ⟨-1, 1⟩
    * mat_scale scale * mat_trans (-centre)

/-- `MarginSpec`: margin width and height (defaults 100x100; the renderer
default is 50x50 via `SvgOutputParams`). -/
structure MarginSpec where
  margin_width : ℝ
  margin_height : ℝ

/-- `MarginSpec.get`: the margin as a complex number. -/
def MarginSpec.get (m : MarginSpec) : ℂ := ⟨m.margin_width, m.margin_height⟩

/-- `BorderSpec`: a border color and margin size factor. -/
structure BorderSpec where
  color : String
  border_margin : ℝ

/-- `SvgOutputParams`: the rendering style options. -/
structure SvgOutputParams where
  oncolor : String
  offcolor : String
  line_width : ℝ
  margin : MarginSpec
  width : ℝ
  borders : List BorderSpec

/-- The documented defaults of `SvgOutputParams`:
black / red, line width 1, margin 50x50, width 700, one blue border. -/
def default_params : SvgOutputParams :=
  { oncolor := "black", offcolor := "red", line_width := 1,
    margin := ⟨50, 50⟩, width := 700, borders := [⟨"blue", 1⟩] }

/-- The `qli` command stream, one constructor per visitor callback of the
executors (`doVectorMotion`, `doCircle`, `doVectorPosition`,
`doClearSequence`, `doVectorSequenceEnd`, `doNeedleOff`, `doNeedleOn`,
`doEnd`).  Modelled from the spec: the command data type itself lives in
the external `qli_parser` module; its variants and fields are taken from
the spec's Command table and the executors' uses of them. -/
inductive Command where
  | vectorMotion (axes : ℕ × ℕ)
  | circle (radius start_angle angle_range : ℝ)
  | vectorPosition (d1 d2 : ℝ)
  | clearSequence
  | vectorSequenceEnd
  | needleOff
  | needleOn
  | endProgram

/-- State of `QliSvgExtentsExecutor`: axis mapping, current location,
running extrema (seeded at the origin), relative origin. -/
structure ExtState where
  axes : ℕ × ℕ
  cur_loc : ℂ
  min_extent : ℂ
  max_extent : ℂ
  relative : ℂ

/-- `QliSvgExtentsExecutor.__init__`. -/
def initExt : ExtState :=
  { axes := (0, 1), cur_loc := 0, min_extent := 0, max_extent := 0,
    relative := 0 }

/-- `coord(d1, d2)`: pick the arguments through the axis mapping,
`args[axes[0]] + 1j * args[axes[1]]`. -/
def coord (axes : ℕ × ℕ) (d1 d2 : ℝ) : ℂ :=
  ⟨if axes.1 = 0 then d1 else d2, if axes.2 = 0 then d1 else d2⟩

/-- `new_extent(loc)`: fold a location into the running extrema. -/
def new_extent (st : ExtState) (loc : ℂ) : ExtState :=
  { st with
    min_extent := ⟨min loc.re st.min_extent.re, min loc.im st.min_extent.im⟩,
    max_extent := ⟨max loc.re st.max_extent.re, max loc.im st.max_extent.im⟩ }

/-- The `while i < 4 and saf + i < eaf` loop of
`QliSvgExtentsExecutor.doCircle`, folding the quarter-turn boundary points
`rect(r, pi*0.5*(saf+i)) - sp + cur_loc` into the extrema.  `i` starts at
1 and strictly increases, so fuel 4 makes the recursion total without
changing its behaviour. -/
def circleLoop (r : ℝ) (sp cur : ℂ) (saf eaf : ℝ) :
    ℕ → ℕ → ExtState → ExtState
  | 0, _, st => st
  | fuel + 1, i, st =>
      if i < 4 ∧ saf + (i : ℝ) < eaf then
        circleLoop r sp cur saf eaf fuel (i + 1)
          (new_extent st (rect r (Real.pi * 0.5 * (saf + (i : ℝ))) - sp + cur))
      else st

/-- `QliSvgExtentsExecutor.doCircle`. -/
def doCircleExt (st : ExtState) (r sa_deg range_deg : ℝ) : ExtState :=
  let sa := sa_deg * Real.pi / 180
  let ea := sa + range_deg * Real.pi / 180
  let sp := rect r sa
  let ep := rect r ea
  let next_loc := st.cur_loc + (ep - sp)
  let st1 := new_extent st next_loc
  let saf := 2 * sa / Real.pi
  let eaf := 2 * ea / Real.pi
  let saf2 := if eaf < saf then eaf else saf
  let eaf2 := if eaf < saf then saf else eaf
  let saf3 : ℝ := (⌊saf2⌋ : ℝ)
  let st2 := circleLoop r sp st.cur_loc saf3 eaf2 4 1 st1
  { st2 with cur_loc := next_loc }

/-- One step of the extent pass.  The commands the extents executor does
not override (`needleOff`, `needleOn`, `endProgram`) are no-ops; modelled
from the spec: the base class `qli_parser.QliExecutor` supplies their
handlers and the spec states they have no geometric effect on this pass. -/
def stepExt (st : ExtState) : Command → ExtState
  | .vectorMotion a => { st with axes := a }
  | .circle r sa ra => doCircleExt st r sa ra
  | .vectorPosition d1 d2 =>
      let next_loc := coord st.axes d1 d2 + st.relative
      let st1 := new_extent st next_loc
      { st1 with cur_loc := next_loc }
  | .clearSequence => { st with cur_loc := 0 }
  | .vectorSequenceEnd => { st with relative := st.cur_loc }
  | .needleOff => st
  | .needleOn => st
  | .endProgram => st

/-- The extent pass over a whole program.  Modelled from the spec:
`program.execute(visitor)` of the external parser invokes the visitor
callback once per command, in order. -/
def runExt (cmds : List Command) : ExtState :=
  cmds.foldl stepExt initExt

/-- `loc` lies inside the running bounding box of `st`, componentwise. -/
def containsPt (st : ExtState) (loc : ℂ) : Prop :=
  st.min_extent.re ≤ loc.re ∧ st.min_extent.im ≤ loc.im ∧
  loc.re ≤ st.max_extent.re ∧ loc.im ≤ st.max_extent.im

/-- Python `%` on reals for a positive modulus: `a - b * floor(a / b)`. -/
def pymod (a b : ℝ) : ℝ := a - b * (⌊a / b⌋ : ℝ)

/-- The `svg.path` primitives used by the source: `Move`, `Line` and
`Arc(start, radius, rot, large_arc, sweep, end)`. -/
inductive Primitive where
  | move (tgt : ℂ)
  | line (src dst : ℂ)
  | arc (src : ℂ) (radius : ℂ) (rotv : ℝ) (large_arc sweep : Bool) (dst : ℂ)

/-- The `.start` attribute of a primitive (for `Move` it is the target). -/
def Primitive.start : Primitive → ℂ
  | .move t => t
  | .line s _ => s
  | .arc s _ _ _ _ _ => s

/-- Whether a primitive is a `Move` (`isinstance(first, svg.path.Move)`). -/
def Primitive.isMove : Primitive → Bool
  | .move _ => true
  | _ => false

/-- `SvgPath`: a finished path segment with the needle state it was drawn
under and an optional explicit color (used by synthetic borders). -/
structure SvgPath where
  needle_state : Bool
  path : List Primitive
  alternate_color : Option String

/-- `SvgPath.__init__`: if the first primitive is not a `Move`, insert
`Move(first.start)` in front.  On an empty path Python would raise an
`IndexError` at `self.path[0]`; all call sites guard for non-emptiness, so
the empty case just keeps the empty path. -/
def mkSvgPath (needle_state : Bool) (path : List Primitive)
    (alternate_color : Option String) : SvgPath :=
  match path with
  | [] => ⟨needle_state, [], alternate_color⟩
  | first :: _ =>
      if first.isMove then ⟨needle_state, path, alternate_color⟩
      else ⟨needle_state, .move first.start :: path, alternate_color⟩

/-- `SvgPattern`: the extents plus the ordered element list.  The `write`
method emits the elements of `svg_elements` in list order, so the list
order is the document order. -/
structure SvgPattern where
  extents : ℂ × ℂ
  svg_elements : List SvgPath

/-- `SvgPattern.append`. -/
def SvgPattern.append (p : SvgPattern) (e : SvgPath) : SvgPattern :=
  { p with svg_elements := p.svg_elements ++ [e] }

/-- The four `Line` primitives built by `SvgPattern.add_bounding_box` at
`extents[0]-offset .. extents[1]+offset`. -/
def borderBox (extents : ℂ × ℂ) (offset : ℂ) : List Primitive :=
  let e0 := extents.1 - offset
  let e1 := extents.2 + offset
  [ .line e0 ⟨e0.re, e1.im⟩,
    .line ⟨e0.re, e1.im⟩ e1,
    .line e1 ⟨e1.re, e0.im⟩,
    .line ⟨e1.re, e0.im⟩ e0 ]

/-- `SvgPattern.add_bounding_box(color, offset)`: append a four-sided
closed outline at `extents[0]-offset .. extents[1]+offset`, needle off,
with the border's explicit color. -/
def SvgPattern.add_bounding_box (p : SvgPattern) (color : String)
    (offset : ℂ) : SvgPattern :=
  p.append (mkSvgPath false (borderBox p.extents offset) (some color))

/-- `SvgOutContext.__init__`: style quantities derived from the pattern's
bounding-box size (`math.ceil` is exact integer ceiling). -/
structure SvgOutContext where
  bounding_box_delta : ℂ
  line_width : ℝ

/-- Build the `SvgOutContext` from a pattern and params. -/
def mkContext (pattern : SvgPattern) (params : SvgOutputParams) :
    SvgOutContext :=
  let size := pattern.extents.2 - pattern.extents.1
  { bounding_box_delta := (⌈(size.re + size.im) * 0.02⌉ : ℝ) * ⟨1, 1⟩,
    line_width := (⌈(size.re + size.im) * 0.001⌉ : ℝ) * params.line_width }

/-- Python float division: raises `ZeroDivisionError` on a zero divisor,
modelled as `none`. -/
def pydiv (a b : ℝ) : Option ℝ := if b = 0 then none else some (a / b)

/-- The size/scale computation of `SvgPattern.write`: `scale = width /
pattern_size.real` (failing exactly when `pattern_size.real == 0`, as
Python division does), `sizey = scale * pattern_size.imag`, and
`overall_size = (sizex, sizey) + 2 * margin`.  Returns the overall canvas
size together with the scale factor. -/
def writeSize (pattern : SvgPattern) (params : SvgOutputParams) :
    Option (ℂ × ℝ) :=
  let pattern_size := pattern.extents.2 - pattern.extents.1
  match pydiv params.width pattern_size.re with
  | none => none
  | some scale =>
      some (⟨params.width, scale * pattern_size.im⟩ + 2 * params.margin.get,
            scale)

/-- The transform matrix `SvgPattern.write` passes to `svg_header`:
overall size, uniform scale `(scale, scale)`, `rotation=cmath.rect(1, pi)`
and the pattern extents. -/
def writeMat (overall_size : ℂ) (scale : ℝ) (extents : ℂ × ℂ) :
    Matrix (Fin 3) (Fin 3) ℝ :=
  svg_header_mat overall_size ⟨scale, scale⟩ (rect 1 Real.pi) extents

/-- The border loop of `SvgPattern.write_svg`: for each border spec in
list order, `add_bounding_box(border.color, context.bounding_box_delta *
border.border_margin)`.  The context is built once, before the loop. -/
def write_svg_borders (pattern : SvgPattern) (params : SvgOutputParams) :
    SvgPattern :=
  let context := mkContext pattern params
  params.borders.foldl
    (fun pat b =>
      pat.add_bounding_box b.color (context.bounding_box_delta * (b.border_margin : ℂ)))
    pattern

/-- State of `QliSvgExecutor` (the render pass): axis mapping, needle
state, the open path, the accumulated pattern elements, start and current
location, relative origin. -/
structure ExecState where
  axes : ℕ × ℕ
  needle_on : Bool
  svg_current_path : List Primitive
  pattern_elements : List SvgPath
  start_loc : ℂ
  cur_loc : ℂ
  relative : ℂ

/-- `QliSvgExecutor.__init__` (the pattern's extents are produced by the
separate extent pass and do not interact with the element list). -/
def initExec : ExecState :=
  { axes := (0, 1), needle_on := true, svg_current_path := [],
    pattern_elements := [], start_loc := 0, cur_loc := 0, relative := 0 }

/-- `end_path`: if the open path is non-empty, wrap it as an `SvgPath`
(which inserts the leading `Move`) and push it; then clear the open path. -/
def end_path (st : ExecState) : ExecState :=
  match st.svg_current_path with
  | [] => st
  | _ =>
    { st with
      pattern_elements :=
        st.pattern_elements ++ [mkSvgPath st.needle_on st.svg_current_path none],
      svg_current_path := [] }

/-- `set_needle(state)`: flush on a state change, then record the state. -/
def set_needle (st : ExecState) (state : Bool) : ExecState :=
  let st1 := if st.needle_on ≠ state then end_path st else st
  { st1 with needle_on := state }

/-- `QliSvgExecutor.doCircle`: chord endpoint from the same trigonometry
as the extent pass, `large_arc = (abs(angle_range) % 360) > 180`,
`sweep = angle_range > 0`, and an `Arc` primitive appended. -/
def doCircleExec (st : ExecState) (r sa_deg range_deg : ℝ) : ExecState :=
  let sa := Real.pi * sa_deg / 180
  let ea := sa + range_deg * Real.pi / 180
  let sp := rect r sa
  let ep := rect r ea
  let next_loc := st.cur_loc + (ep - sp)
  let mod_angle := pymod |range_deg| 360
  let large_arc : Bool := mod_angle > 180
  let sweep : Bool := range_deg > 0
  { st with
    svg_current_path :=
      st.svg_current_path ++ [.arc st.cur_loc ⟨r, r⟩ 0 large_arc sweep next_loc],
    cur_loc := next_loc }

/-- One step of the render pass (`QliSvgExecutor`'s visitor callbacks). -/
def stepExec (st : ExecState) : Command → ExecState
  | .vectorMotion a => { st with axes := a }
  | .circle r sa ra => doCircleExec st r sa ra
  | .vectorPosition d1 d2 =>
      let next_loc := coord st.axes d1 d2 + st.relative
      { st with
        svg_current_path := st.svg_current_path ++ [.line st.cur_loc next_loc],
        cur_loc := next_loc }
  | .vectorSequenceEnd =>
      let st1 := end_path st
      { st1 with relative := st1.cur_loc }
  | .clearSequence => { st with cur_loc := st.start_loc }
  | .needleOff => set_needle st false
  | .needleOn => set_needle st true
  | .endProgram => end_path st

/-- `QliSvgExecutor.run`: execute every command in order, then `end_path`.
Modelled from the spec: `program.execute(visitor)` of the external parser
invokes the visitor callback once per command, in order. -/
def runExec (cmds : List Command) : ExecState :=
  end_path (cmds.foldl stepExec initExec)

/-- A 180-degree rotation as a homogeneous matrix (claim C5's item (b)). -/
def rot180 : Matrix (Fin 3) (Fin 3) ℝ := !![-1, 0, 0; 0, -1, 0; 0, 0, 1]

/-- The mirror scale of claim C5's item (c): the reflection whose mirror
line is the vertical axis, negating the x coordinate (the source writes it
as `mat_scale(-1+1j)` with the comment "flip x axis"). -/
def mirror_vert_axis : Matrix (Fin 3) (Fin 3) ℝ := !![-1, 0, 0; 0, 1, 0; 0, 0, 1]

/-- A uniform scale by `k` on both axes (claim C5's item (d)). -/
def uniform_scale (k : ℝ) : Matrix (Fin 3) (Fin 3) ℝ := !![k, 0, 0; 0, k, 0; 0, 0, 1]

/-- The transform as the spec's words describe it, applied to a point in
the order (a) translate the pattern's centre to the origin, (b) rotate by
180 degrees, (c) mirror across the vertical axis, (d) scale uniformly by
`k`, (e) translate the drawing centre to the canvas centre. -/
def spec_transform (overall_size : ℂ) (k : ℝ) (extents : ℂ × ℂ) :
    Matrix (Fin 3) (Fin 3) ℝ :=
  let centre := extents.1 + (extents.2 - extents.1) / 2
  mat_trans (overall_size / 2) * uniform_scale k * mirror_vert_axis
    * rot180 * mat_trans (-centre)

/-- The commands on which `QliSvgExecutor` may flush the open segment:
a needle toggle that changes the state, a sequence end, or program end. -/
def flushTrigger (st : ExecState) : Command → Prop
  | .vectorSequenceEnd => True
  | .endProgram => True
  | .needleOff => st.needle_on = true
  | .needleOn => st.needle_on = false
  | _ => False

/-- Every primitive of the list is a `Line` or an `Arc` (never a `Move`);
this is an invariant of the open path of `QliSvgExecutor`, which only ever
appends `Line` and `Arc` primitives. -/
def noMove (l : List Primitive) : Prop := ∀ p ∈ l, p.isMove = false

/-- The shape of every materialized segment: a leading move to the start
point of the first accumulated primitive, followed by that primitive. -/
def startsWithMove (seg : SvgPath) : Prop :=
  ∃ p l, seg.path = Primitive.move p.start :: p :: l

lemma new_extent_mono (st : ExtState) (l z : ℂ) (h : containsPt st z) :
    containsPt (new_extent st l) z := by
  obtain ⟨h1, h2, h3, h4⟩ := h
  exact ⟨le_trans (min_le_right _ _) h1, le_trans (min_le_right _ _) h2,
         le_trans h3 (le_max_right _ _), le_trans h4 (le_max_right _ _)⟩

lemma new_extent_self (st : ExtState) (l : ℂ) :
    containsPt (new_extent st l) l :=
  ⟨min_le_left _ _, min_le_left _ _, le_max_left _ _, le_max_left _ _⟩

lemma circleLoop_mono (r : ℝ) (sp cur : ℂ) (saf eaf : ℝ) :
    ∀ (fuel i : ℕ) (st : ExtState) (z : ℂ), containsPt st z →
      containsPt (circleLoop r sp cur saf eaf fuel i st) z := by
  intro fuel
  induction fuel with
  | zero => intro i st z h; simpa [circleLoop] using h
  | succ n ih =>
      intro i st z h
      rw [circleLoop]
      split
      · exact ih _ _ _ (new_extent_mono _ _ _ h)
      · exact h

lemma stepExt_inv (st : ExtState) (c : Command)
    (h1 : containsPt st st.cur_loc) (h2 : containsPt st 0) :
    containsPt (stepExt st c) (stepExt st c).cur_loc ∧
      containsPt (stepExt st c) 0 := by
  cases c with
  | vectorMotion a => exact ⟨h1, h2⟩
  | circle r sa ra =>
      simp only [stepExt, doCircleExt]
      refine ⟨?_, ?_⟩
      · exact circleLoop_mono _ _ _ _ _ _ _ _ _ (new_extent_self _ _)
      · exact circleLoop_mono _ _ _ _ _ _ _ _ _ (new_extent_mono _ _ _ h2)
  | vectorPosition d1 d2 =>
      simp only [stepExt]
      exact ⟨new_extent_self _ _, new_extent_mono _ _ _ h2⟩
  | clearSequence => exact ⟨h2, h2⟩
  | vectorSequenceEnd => exact ⟨h1, h2⟩
  | needleOff => exact ⟨h1, h2⟩
  | needleOn => exact ⟨h1, h2⟩
  | endProgram => exact ⟨h1, h2⟩

lemma runExt_inv (cmds : List Command) :
    containsPt (runExt cmds) (runExt cmds).cur_loc ∧
      containsPt (runExt cmds) 0 := by
  have base : containsPt initExt initExt.cur_loc ∧ containsPt initExt 0 := by
    constructor <;> simp [initExt, containsPt]
  have main : ∀ (l : List Command) (st : ExtState),
      containsPt st st.cur_loc ∧ containsPt st 0 →
        containsPt (l.foldl stepExt st) (l.foldl stepExt st).cur_loc ∧
          containsPt (l.foldl stepExt st) 0 := by
    intro l
    induction l with
    | nil => intro st h; simpa using h
    | cons c cs ih =>
        intro st h
        simpa [List.foldl_cons] using ih (stepExt st c) (stepExt_inv st c h.1 h.2)
  exact main cmds initExt base

/-- C2: for every command stream, the extent tracker's bounding box
contains the origin: the running extrema are seeded at the origin, and
`new_extent` only ever widens them, so after executing every command
`min_extent <= 0 <= max_extent` holds componentwise. -/
theorem extents_box_contains_origin (cmds : List Command) :
    (runExt cmds).min_extent.re ≤ 0 ∧ (runExt cmds).min_extent.im ≤ 0 ∧
    0 ≤ (runExt cmds).max_extent.re ∧ 0 ≤ (runExt cmds).max_extent.im := by
  have h := (runExt_inv cmds).2
  simpa [containsPt] using h

/-- C10: in the extent tracker, the current location always lies inside
the running bounding box: after executing any command stream (hence after
every prefix of any stream), `min_extent <= cur_loc <= max_extent` holds
componentwise.  Every command that moves `cur_loc` folds the new location
into the extrema first, and `SequenceReset` moves it to the origin, which
is always inside the box. -/
theorem extents_cur_loc_in_box (cmds : List Command) :
    containsPt (runExt cmds) (runExt cmds).cur_loc :=
  (runExt_inv cmds).1

lemma circleLoop_visits (r : ℝ) (sp cur : ℂ) (saf eaf : ℝ) :
    ∀ (fuel i j : ℕ) (st : ExtState), i ≤ j → j < 4 → saf + (j : ℝ) < eaf →
      j + 1 ≤ i + fuel →
      containsPt (circleLoop r sp cur saf eaf fuel i st)
        (rect r (Real.pi * 0.5 * (saf + (j : ℝ))) - sp + cur) := by
  intro fuel
  induction fuel with
  | zero => intro i j st hij hj4 hje hfuel; exfalso; omega
  | succ n ih =>
      intro i j st hij hj4 hje hfuel
      rw [circleLoop]
      have hcond : i < 4 ∧ saf + (i : ℝ) < eaf := by
        refine ⟨by omega, ?_⟩
        rcases eq_or_lt_of_le hij with h | h
        · subst h; exact hje
        · exact lt_trans (add_lt_add_left (by exact_mod_cast h) saf) hje
      rw [if_pos hcond]
      rcases eq_or_lt_of_le hij with h | h
      · subst h
        exact circleLoop_mono _ _ _ _ _ _ _ _ _ (new_extent_self _ _)
      · exact ih (i + 1) j _ h hj4 hje (by omega)

lemma doCircleExt_mono (st : ExtState) (r sa ra : ℝ) (z : ℂ)
    (h : containsPt st z) : containsPt (doCircleExt st r sa ra) z := by
  simp only [doCircleExt]
  exact circleLoop_mono _ _ _ _ _ _ _ _ _ (new_extent_mono _ _ _ h)

lemma doCircleExt_0_450_folds (st : ExtState) (r : ℝ) (j : ℕ)
    (h1 : 1 ≤ j) (hj : j < 4) :
    containsPt (doCircleExt st r 0 450)
      (rect r (Real.pi * 0.5 * ((0 : ℝ) + (j : ℝ))) - (⟨r, 0⟩ : ℂ) + st.cur_loc) := by
  have hang : (0 : ℝ) * Real.pi / 180 = 0 := by ring
  have hsp : rect r ((0 : ℝ) * Real.pi / 180) = (⟨r, 0⟩ : ℂ) := by
    rw [hang]; simp [rect, Complex.ext_iff]
  have hsaf : 2 * ((0 : ℝ) * Real.pi / 180) / Real.pi = 0 := by
    rw [hang]; simp
  have heaf : 2 * ((0 : ℝ) * Real.pi / 180 + 450 * Real.pi / 180) / Real.pi = 5 := by
    rw [div_eq_iff Real.pi_ne_zero]; ring
  have h50 : ¬ ((5 : ℝ) < 0) := by norm_num
  have hje : (0 : ℝ) + (j : ℝ) < 5 := by
    have : (j : ℝ) < 4 := by exact_mod_cast hj
    linarith
  simp only [doCircleExt, hsp, hsaf, heaf, if_neg h50, Int.floor_zero, Int.cast_zero]
  exact circleLoop_visits r ⟨r, 0⟩ st.cur_loc 0 5 4 1 j _ h1 hj hje (by omega)

lemma runExt_append_circle (cmds : List Command) (r sa ra : ℝ) :
    runExt (cmds ++ [Command.circle r sa ra]) =
      doCircleExt (runExt cmds) r sa ra := by
  simp [runExt, List.foldl_append, stepExt]

/-- C1 (amended): after an Arc command with `start_angle = 0` and
`angle_range = 450`, executed by the extent tracker after any prefix of
commands, the bounding box contains all four cardinal extrema (the points
at angles 0, 90, 180 and 270 degrees) of the arc's circle — the circle of
the given radius centred at the pre-arc current location minus the start
point `rect(r, 0)` (the arc starts *on* the circle at the current
location; the claim's "centred at the pre-arc current location" is off by
that start-point offset).  In the exact-real model the containment is
exact, hence within any tolerance. -/
theorem arc450_box_contains_cardinals (cmds : List Command) (r : ℝ) :
    containsPt (runExt (cmds ++ [Command.circle r 0 450]))
      ((runExt cmds).cur_loc - rect r 0 + rect r 0) ∧
    containsPt (runExt (cmds ++ [Command.circle r 0 450]))
      ((runExt cmds).cur_loc - rect r 0 + rect r (Real.pi / 2)) ∧
    containsPt (runExt (cmds ++ [Command.circle r 0 450]))
      ((runExt cmds).cur_loc - rect r 0 + rect r Real.pi) ∧
    containsPt (runExt (cmds ++ [Command.circle r 0 450]))
      ((runExt cmds).cur_loc - rect r 0 + rect r (3 * Real.pi / 2)) := by
  have hrun := runExt_append_circle cmds r 0 450
  have hsp0 : rect r 0 = (⟨r, 0⟩ : ℂ) := by simp [rect, Complex.ext_iff]
  have e1 : Real.pi * 0.5 * ((0 : ℝ) + ((1 : ℕ) : ℝ)) = Real.pi / 2 := by
    push_cast; ring
  have e2 : Real.pi * 0.5 * ((0 : ℝ) + ((2 : ℕ) : ℝ)) = Real.pi := by
    push_cast; ring
  have e3 : Real.pi * 0.5 * ((0 : ℝ) + ((3 : ℕ) : ℝ)) = 3 * Real.pi / 2 := by
    push_cast; ring
  refine ⟨?_, ?_, ?_, ?_⟩
  · have hpt : (runExt cmds).cur_loc - rect r 0 + rect r 0 = (runExt cmds).cur_loc := by
      ring
    rw [hrun, hpt]
    exact doCircleExt_mono _ _ _ _ _ (runExt_inv cmds).1
  · have hk := doCircleExt_0_450_folds (runExt cmds) r 1 (by norm_num) (by norm_num)
    rw [e1] at hk
    have hpt : (runExt cmds).cur_loc - rect r 0 + rect r (Real.pi / 2) =
        rect r (Real.pi / 2) - (⟨r, 0⟩ : ℂ) + (runExt cmds).cur_loc := by
      rw [hsp0]; ring
    rw [hrun, hpt]
    exact hk
  · have hk := doCircleExt_0_450_folds (runExt cmds) r 2 (by norm_num) (by norm_num)
    rw [e2] at hk
    have hpt : (runExt cmds).cur_loc - rect r 0 + rect r Real.pi =
        rect r Real.pi - (⟨r, 0⟩ : ℂ) + (runExt cmds).cur_loc := by
      rw [hsp0]; ring
    rw [hrun, hpt]
    exact hk
  · have hk := doCircleExt_0_450_folds (runExt cmds) r 3 (by norm_num) (by norm_num)
    rw [e3] at hk
    have hpt : (runExt cmds).cur_loc - rect r 0 + rect r (3 * Real.pi / 2) =
        rect r (3 * Real.pi / 2) - (⟨r, 0⟩ : ℂ) + (runExt cmds).cur_loc := by
      rw [hsp0]; ring
    rw [hrun, hpt]
    exact hk

lemma circleLoop_max_re_le (r : ℝ) (sp cur : ℂ) (saf eaf : ℝ) (B : ℝ)
    (hpt : ∀ i : ℕ,
      (rect r (Real.pi * 0.5 * (saf + (i : ℝ))) - sp + cur).re ≤ B) :
    ∀ (fuel i : ℕ) (st : ExtState), st.max_extent.re ≤ B →
      (circleLoop r sp cur saf eaf fuel i st).max_extent.re ≤ B := by
  intro fuel
  induction fuel with
  | zero => intro i st h; simpa [circleLoop] using h
  | succ n ih =>
      intro i st h
      rw [circleLoop]
      split
      · exact ih _ _ (by simpa [new_extent] using max_le (hpt i) h)
      · exact h

/-- C1 counterexample for the claim as stated: take the empty prefix (so
the pre-arc current location is the origin) and radius 1.  The circle of
radius 1 centred at the pre-arc current location has its angle-0 cardinal
extremum at `rect 1 0 = 1`, and the box computed for the 450-degree arc
does **not** contain it: every point the arc pass folds in has real part
at most 0 (the arc's circle is centred at `-1`, not at the current
location). -/
theorem arc450_cardinals_cex :
    ¬ containsPt (runExt [Command.circle 1 0 450])
        ((runExt ([] : List Command)).cur_loc + rect 1 0) := by
  intro h
  have hrun : runExt [Command.circle 1 0 450] = doCircleExt initExt 1 0 450 := by
    simp [runExt, stepExt]
  have hzero : (runExt ([] : List Command)).cur_loc = 0 := rfl
  rw [hrun, hzero, zero_add] at h
  have hang : (0 : ℝ) * Real.pi / 180 = 0 := by ring
  have hbound : (doCircleExt initExt 1 0 450).max_extent.re ≤ 0 := by
    simp only [doCircleExt]
    apply circleLoop_max_re_le
    · intro i
      simp only [rect, Complex.sub_re, Complex.add_re, hang, Real.cos_zero, initExt]
      norm_num
      exact Real.cos_le_one _
    · simp only [new_extent, initExt, rect, Complex.add_re, Complex.sub_re, hang,
        Real.cos_zero]
      norm_num
      exact Real.cos_le_one _
  have hre : (rect 1 0).re = 1 := by simp [rect]
  have := h.2.2.1
  rw [hre] at this
  linarith

/-- C7: `condition_floats` with the source's `EPLSILON = 1e-6` replaces a
component `v` by exactly 0 precisely when `|v|` is smaller than `1e-6`
times the largest absolute component of the same group (the source tests
`abs(v) / epsilon < max_abs`, which is equivalent), and keeps it unchanged
otherwise; in particular a component `1e-9` grouped with a component `1.0`
becomes exactly `0`. -/
theorem condition_floats_spec (l : List ℚ) :
    condition_floats EPLSILON l =
      l.map (fun v => if |v| < EPLSILON * max_abs_of l then 0 else v) ∧
    condition_floats EPLSILON [1 / 1000000000, 1] = [0, 1] := by
  constructor
  · unfold condition_floats
    refine List.map_congr_left ?_
    intro v _
    have heps : (0 : ℚ) < EPLSILON := by norm_num [EPLSILON]
    by_cases h : |v| < EPLSILON * max_abs_of l
    · rw [if_pos h, if_pos ((div_lt_iff₀ heps).mpr (by linarith [h]))]
    · rw [if_neg h, if_neg (fun hc => h ((div_lt_iff₀ heps).mp hc |>.trans_eq (by ring)))]
  · have h9 : |(1 : ℚ) / 1000000000| = 1 / 1000000000 := abs_of_pos (by norm_num)
    have h1 : |(1 : ℚ)| = 1 := abs_one
    have hm : max_abs_of [1 / 1000000000, 1] = 1 := by
      simp only [max_abs_of, List.foldl_cons, List.foldl_nil, h9, h1]
      exact max_eq_right (max_le (by norm_num) (by norm_num))
    simp only [condition_floats, hm, List.map_cons, List.map_nil, h9, h1]
    rw [if_pos (by norm_num [EPLSILON]), if_neg (by norm_num [EPLSILON])]

/-- C9: for a pattern whose bounding-box size `S` has `S.x > 0`, the
emitted canvas is exactly `width + 2*margin.x` by
`width * S.y / S.x + 2*margin.y` (and the scale factor is `width / S.x`);
in particular, for extents `(0,0)-(1,1)`, width 100 and zero margin the
canvas is exactly 100 by 100 (see the witness). -/
theorem write_canvas_size (pattern : SvgPattern) (params : SvgOutputParams)
    (hx : 0 < (pattern.extents.2 - pattern.extents.1).re) :
    writeSize pattern params =
      some (⟨params.width + 2 * params.margin.margin_width,
             params.width * (pattern.extents.2 - pattern.extents.1).im /
               (pattern.extents.2 - pattern.extents.1).re +
               2 * params.margin.margin_height⟩,
            params.width / (pattern.extents.2 - pattern.extents.1).re) := by
  simp only [writeSize, pydiv]
  rw [if_neg (ne_of_gt hx)]
  simp only [Option.some.injEq, Prod.mk.injEq, and_true]
  apply Complex.ext
  · simp [MarginSpec.get, Complex.add_re, Complex.mul_re]
  · simp [MarginSpec.get, Complex.add_im, Complex.mul_im]
    ring

/-- Witness for C9 at a unit-square pattern, width 100, zero margin. -/
theorem write_canvas_size_witness :
    writeSize ⟨(0, ⟨1, 1⟩), []⟩
        ⟨"black", "red", 1, ⟨0, 0⟩, 100, []⟩ =
      some (⟨100, 100⟩, 100) := by
  rw [write_canvas_size ⟨(0, ⟨1, 1⟩), []⟩ ⟨"black", "red", 1, ⟨0, 0⟩, 100, []⟩
    (by simp)]
  norm_num [Complex.ext_iff]

/-- C6 (amended): there is no explicit degeneracy guard in
`SvgPattern.write`; what happens is: when `S.x = 0` the scale division
itself fails (Python raises `ZeroDivisionError`, modelled as `none`) and
the failure propagates to the caller, so no NaN or garbage transform is
ever produced; when `S.x ≠ 0` — including the degenerate case `S.y = 0` —
rendering proceeds and succeeds, producing a (possibly zero-height)
canvas.  A zero `S.y` is not detected and not reported. -/
theorem write_degenerate_size (pattern : SvgPattern) (params : SvgOutputParams) :
    ((pattern.extents.2 - pattern.extents.1).re = 0 →
      writeSize pattern params = none) ∧
    ((pattern.extents.2 - pattern.extents.1).re ≠ 0 →
      (writeSize pattern params).isSome = true) := by
  constructor
  · intro h
    simp only [writeSize, pydiv, if_pos h]
  · intro h
    simp only [writeSize, pydiv, if_neg h, Option.isSome_some]

/-- Witness for C6 (amended) at concrete patterns: extents `(0, i)` give
`S.x = 0` and a reported failure; extents `(0, 1)` give `S.x = 1 ≠ 0` and
success. -/
theorem write_degenerate_size_witness :
    writeSize ⟨(0, ⟨0, 1⟩), []⟩ default_params = none ∧
    (writeSize ⟨(0, ⟨1, 0⟩), []⟩ default_params).isSome = true := by
  constructor
  · exact (write_degenerate_size ⟨(0, ⟨0, 1⟩), []⟩ default_params).1 (by simp)
  · exact (write_degenerate_size ⟨(0, ⟨1, 0⟩), []⟩ default_params).2 (by simp)

/-- C6 counterexample for the claim as stated: the claim requires a
degenerate bounding box with `S.y = 0` (extents `(0,0)-(1,0)`) to be
"reported to the caller as a rendering-precondition failure", but the
writer succeeds on it — the scale division only involves `S.x`, and no
code checks `S.y`. -/
theorem write_degenerate_size_cex :
    writeSize ⟨(0, ⟨1, 0⟩), []⟩ default_params ≠ none := by
  simp only [writeSize, pydiv]
  rw [if_neg (by simp : ¬((⟨1, 0⟩ - 0 : ℂ).re = 0))]
  simp

/-- C5: the Document Writer's transform — `svg_header`'s matrix called
with uniform scale `(k, k)` for `k = target_width / S.x` and rotation
`cmath.rect(1, pi)` — equals the composition, applied to a point in this
order, of (a) translation of the pattern's centre to the origin, (b) a
180-degree rotation, (c) the mirror scale flipping across the vertical
axis (`x ↦ -x`, the source's `mat_scale(-1+1j)`), (d) a uniform scale by
`target_width / S.x` on both axes, and (e) a translation placing the
drawing centre at the canvas centre. -/
theorem writer_transform_decomposition (extents : ℂ × ℂ) (overall : ℂ) (W : ℝ) :
    writeMat overall (W / (extents.2 - extents.1).re) extents =
      spec_transform overall (W / (extents.2 - extents.1).re) extents := by
  have hrot : rect 1 Real.pi = (⟨-1, 0⟩ : ℂ) := by
    simp [rect, Complex.ext_iff]
  simp only [writeMat, svg_header_mat, spec_transform, hrot]
  ext i j
  fin_cases i <;> fin_cases j <;>
    simp [mat_rot, mat_scale, mat_trans, rot180, mirror_vert_axis, uniform_scale,
      Matrix.mul_apply, Fin.sum_univ_three]

/-- C3 (amended): the stream
`[Position A, ToolOff, Position B, ToolOn, Position C, End]` yields
exactly **three** PathSegments, split precisely at the two toggle
boundaries: the segment drawn before `ToolOff` (tool-on), the segment
between the toggles (tool-off), and the segment after `ToolOn` (tool-on).
Each segment starts with a move to its first primitive's start point. -/
theorem toggle_stream_segments (a1 a2 b1 b2 c1 c2 : ℝ) :
    (runExec [Command.vectorPosition a1 a2, Command.needleOff,
              Command.vectorPosition b1 b2, Command.needleOn,
              Command.vectorPosition c1 c2, Command.endProgram]).pattern_elements =
      [⟨true, [.move 0, .line 0 (⟨a1, a2⟩ + 0)], none⟩,
       ⟨false, [.move (⟨a1, a2⟩ + 0), .line (⟨a1, a2⟩ + 0) (⟨b1, b2⟩ + 0)], none⟩,
       ⟨true, [.move (⟨b1, b2⟩ + 0), .line (⟨b1, b2⟩ + 0) (⟨c1, c2⟩ + 0)], none⟩] := by
  rfl

/-- C3 counterexample for the claim as stated: on the concrete instance
`A = (1,2), B = (3,4), C = (5,6)` the stream yields three PathSegments,
not "exactly two" — the two toggles and the program end each flush one
segment. -/
theorem toggle_stream_segments_cex :
    (runExec [Command.vectorPosition 1 2, Command.needleOff,
              Command.vectorPosition 3 4, Command.needleOn,
              Command.vectorPosition 5 6, Command.endProgram]).pattern_elements.length
      ≠ 2 := by
  have h3 :
      (runExec [Command.vectorPosition 1 2, Command.needleOff,
                Command.vectorPosition 3 4, Command.needleOn,
                Command.vectorPosition 5 6, Command.endProgram]).pattern_elements.length
        = 3 := by rfl
  rw [h3]
  norm_num

lemma add_bounding_box_foldl (bs : List BorderSpec) (p : SvgPattern) (delta : ℂ) :
    (bs.foldl (fun pat b =>
        pat.add_bounding_box b.color (delta * (b.border_margin : ℂ))) p).svg_elements =
      p.svg_elements ++ bs.map (fun b =>
        mkSvgPath false (borderBox p.extents (delta * (b.border_margin : ℂ)))
          (some b.color)) := by
  induction bs generalizing p with
  | nil => simp
  | cons b bs ih =>
      have hext : (p.add_bounding_box b.color (delta * (b.border_margin : ℂ))).extents
          = p.extents := rfl
      simp only [List.foldl_cons, List.map_cons]
      rw [ih, hext]
      simp [SvgPattern.add_bounding_box, SvgPattern.append]

/-- C4 (amended): the synthetic border rectangles are **appended after**
the pattern's existing elements, in border-list order — they are the last
PathSegments, so in the emitted document (which writes `svg_elements` in
list order) every border path appears after, and is drawn above, every
stroke path produced from the command stream. -/
theorem borders_appended_last (pattern : SvgPattern) (params : SvgOutputParams) :
    (write_svg_borders pattern params).svg_elements =
      pattern.svg_elements ++ params.borders.map (fun b =>
        mkSvgPath false
          (borderBox pattern.extents
            ((mkContext pattern params).bounding_box_delta * (b.border_margin : ℂ)))
          (some b.color)) := by
  simp only [write_svg_borders]
  exact add_bounding_box_foldl params.borders pattern _

/-- C4 counterexample for the claim as stated: a pattern holding one
stroke segment, rendered with the default single blue border.  After
`write_svg` applies the borders, the element list maps (by the explicit
border color) to `[none, some "blue"]`: the first element is the stroke
and the border is last — the border is *not* the first PathSegment and is
emitted after the stroke, not before it. -/
theorem borders_appended_last_cex :
    ((write_svg_borders
        ⟨(0, ⟨1, 1⟩), [mkSvgPath true [.line 0 ⟨1, 1⟩] none]⟩
        default_params).svg_elements.map SvgPath.alternate_color) =
      [none, some "blue"] := by
  rfl

lemma mkSvgPath_startsWithMove (b : Bool) (p : Primitive) (l : List Primitive)
    (alt : Option String) (h : p.isMove = false) :
    startsWithMove (mkSvgPath b (p :: l) alt) := by
  refine ⟨p, l, ?_⟩
  simp [mkSvgPath, h]

lemma end_path_good (st : ExecState) (h1 : noMove st.svg_current_path)
    (h2 : ∀ seg ∈ st.pattern_elements, startsWithMove seg) :
    noMove (end_path st).svg_current_path ∧
      ∀ seg ∈ (end_path st).pattern_elements, startsWithMove seg := by
  cases hp : st.svg_current_path with
  | nil =>
      have : end_path st = st := by
        simp only [end_path, hp]
      rw [this]
      exact ⟨by rw [hp]; exact fun p hmem => absurd hmem (List.not_mem_nil p), h2⟩
  | cons p rest =>
      have : end_path st =
          { st with
            pattern_elements := st.pattern_elements ++
              [mkSvgPath st.needle_on st.svg_current_path none],
            svg_current_path := [] } := by
        simp only [end_path, hp]
      rw [this]
      refine ⟨fun q hmem => absurd hmem (List.not_mem_nil q), ?_⟩
      intro seg hseg
      rcases List.mem_append.mp hseg with h | h
      · exact h2 seg h
      · rw [List.mem_singleton.mp h]
        rw [hp]
        exact mkSvgPath_startsWithMove _ _ _ _ (h1 p (by rw [hp]; exact List.mem_cons_self p rest))

lemma noMove_append_single (l : List Primitive) (p : Primitive)
    (h : noMove l) (hp : p.isMove = false) : noMove (l ++ [p]) := by
  intro q hq
  rcases List.mem_append.mp hq with h' | h'
  · exact h q h'
  · rw [List.mem_singleton.mp h']; exact hp

lemma stepExec_good (st : ExecState) (c : Command)
    (h1 : noMove st.svg_current_path)
    (h2 : ∀ seg ∈ st.pattern_elements, startsWithMove seg) :
    noMove (stepExec st c).svg_current_path ∧
      ∀ seg ∈ (stepExec st c).pattern_elements, startsWithMove seg := by
  cases c with
  | vectorMotion a => exact ⟨h1, h2⟩
  | circle r sa ra =>
      exact ⟨noMove_append_single _ _ h1 rfl, h2⟩
  | vectorPosition d1 d2 =>
      exact ⟨noMove_append_single _ _ h1 rfl, h2⟩
  | vectorSequenceEnd =>
      exact end_path_good st h1 h2
  | clearSequence => exact ⟨h1, h2⟩
  | needleOff =>
      simp only [stepExec, set_needle]
      split
      · exact end_path_good st h1 h2
      · exact ⟨h1, h2⟩
  | needleOn =>
      simp only [stepExec, set_needle]
      split
      · exact end_path_good st h1 h2
      · exact ⟨h1, h2⟩
  | endProgram => exact end_path_good st h1 h2

lemma stepExec_elements_unchanged (st : ExecState) (c : Command)
    (h : (stepExec st c).pattern_elements ≠ st.pattern_elements) :
    st.svg_current_path ≠ [] ∧ flushTrigger st c := by
  have hflush : ∀ s : ExecState, s.svg_current_path = [] → end_path s = s := by
    intro s hs
    simp only [end_path, hs]
  cases c with
  | vectorMotion a => exact absurd rfl h
  | circle r sa ra => exact absurd rfl h
  | vectorPosition d1 d2 => exact absurd rfl h
  | clearSequence => exact absurd rfl h
  | vectorSequenceEnd =>
      refine ⟨fun he => h ?_, trivial⟩
      simp only [stepExec, hflush st he]
  | needleOff =>
      by_cases hn : st.needle_on = true
      · refine ⟨fun he => h ?_, hn⟩
        simp only [stepExec, set_needle, hflush st he]
        split <;> rfl
      · exfalso
        apply h
        have : st.needle_on = false := by
          cases hb : st.needle_on
          · rfl
          · exact absurd hb hn
        simp only [stepExec, set_needle, this]
        rfl
  | needleOn =>
      by_cases hn : st.needle_on = false
      · refine ⟨fun he => h ?_, hn⟩
        simp only [stepExec, set_needle, hflush st he]
        split <;> rfl
      · exfalso
        apply h
        have : st.needle_on = true := by
          cases hb : st.needle_on
          · exact absurd hb hn
          · rfl
        simp only [stepExec, set_needle, this]
        rfl
  | endProgram =>
      refine ⟨fun he => h ?_, trivial⟩
      simp only [stepExec, hflush st he]

/-- C8: every PathSegment materialized into the pattern by the path
builder begins with a move-to primitive, namely a move to its first
accumulated primitive's start point inserted in front by `SvgPath.__init__`
(the open path itself only ever receives `Line`/`Arc` primitives); and a
step changes the materialized segment list only when the open path is
non-empty and the command is a state-changing tool toggle, a sequence end,
or the program end. -/
theorem segments_begin_with_move (cmds : List Command) :
    (∀ seg ∈ (runExec cmds).pattern_elements, startsWithMove seg) ∧
    (∀ (st : ExecState) (c : Command),
      (stepExec st c).pattern_elements ≠ st.pattern_elements →
        st.svg_current_path ≠ [] ∧ flushTrigger st c) := by
  constructor
  · have main : ∀ (l : List Command) (st : ExecState),
        noMove st.svg_current_path →
        (∀ seg ∈ st.pattern_elements, startsWithMove seg) →
        ∀ seg ∈ (l.foldl stepExec st).pattern_elements, startsWithMove seg := by
      intro l
      induction l with
      | nil => intro st _ h2; simpa using h2
      | cons c cs ih =>
          intro st h1 h2
          have hstep := stepExec_good st c h1 h2
          simpa [List.foldl_cons] using ih (stepExec st c) hstep.1 hstep.2
    intro seg hseg
    have hinit1 : noMove initExec.svg_current_path := by
      intro p hp
      exact absurd hp (List.not_mem_nil p)
    have hinit2 : ∀ seg ∈ initExec.pattern_elements, startsWithMove seg := by
      intro s hs
      exact absurd hs (List.not_mem_nil s)
    have hfold := main cmds initExec hinit1 hinit2
    have hgood1 : noMove (cmds.foldl stepExec initExec).svg_current_path := by
      have main1 : ∀ (l : List Command) (st : ExecState),
          noMove st.svg_current_path →
          (∀ seg ∈ st.pattern_elements, startsWithMove seg) →
          noMove (l.foldl stepExec st).svg_current_path := by
        intro l
        induction l with
        | nil => intro st h1 _; simpa using h1
        | cons c cs ih =>
            intro st h1 h2
            have hstep := stepExec_good st c h1 h2
            simpa [List.foldl_cons] using ih (stepExec st c) hstep.1 hstep.2
      exact main1 cmds initExec hinit1 hinit2
    have := (end_path_good (cmds.foldl stepExec initExec) hgood1 hfold).2
    exact this seg hseg
  · exact stepExec_elements_unchanged

/-- Witness for C8 at the concrete stream `[Position (1,2), End]` (for
the first part, at its single materialized segment) and at a concrete
state with a non-empty open path together with the `End` command (for the
flush-condition part). -/
theorem segments_begin_with_move_witness :
    startsWithMove (⟨true, [.move 0, .line 0 (⟨1, 2⟩ + 0)], none⟩ : SvgPath) ∧
    ((⟨(0, 1), true, [.line 0 1], [], 0, 0, 0⟩ : ExecState).svg_current_path ≠ [] ∧
      flushTrigger ⟨(0, 1), true, [.line 0 1], [], 0, 0, 0⟩ Command.endProgram) := by
  constructor
  · apply (segments_begin_with_move
      [Command.vectorPosition 1 2, Command.endProgram]).1
    have hev : (runExec [Command.vectorPosition 1 2, Command.endProgram]).pattern_elements =
        [⟨true, [.move 0, .line 0 (⟨1, 2⟩ + 0)], none⟩] := rfl
    rw [hev]
    exact List.mem_cons_self _ _
  · exact (segments_begin_with_move []).2
      ⟨(0, 1), true, [.line 0 1], [], 0, 0, 0⟩ Command.endProgram
      (by simp [stepExec, end_path])
